import Mathlib

/-!
Verification of the `clappers` command-line argument parser.

Shallow embedding of the two source files:

* `src/lib.rs` — the published library: `Clappers` with `build`, `add_flags`,
  `add_singles`, `add_multiples`, `parse`, `get_flag`, `get_single`,
  `get_multiple`, `get_leftovers`, plus the internal `ConfigType::add_to_config`.
* `src/clappers.rs` — an older copy of the same parser: `build`, `flags`,
  `singles`, `multiples`, `parse`, `get_flag`, `get_single`, `get_multiple`.

Rust `HashMap<String, _>` is modelled as a function `String → Option _`
(insert = pointwise update, last insert wins, exactly the `HashMap` contract),
`HashSet<String>` as `String → Bool`.  Rust `String`s are Lean `String`s and
character-level operations (`split('|')`, `starts_with('-')`, `split_off(1)`)
are modelled on the underlying character list `String.data`.

The parse loop in `lib.rs` (lines 472–516) and the one in `clappers.rs`
(lines 146–190) are textually identical (only local variable names differ),
so both are embedded by the single function `parseGo`/`parseLoop` below; the
sole difference between the two `parse` entry points — `lib.rs` first inserts
the reserved empty-string leftovers alias into the multiples tables
(lines 461–465), `clappers.rs` does not — is kept in the respective `parse`
definitions.  `parse` takes the argument list *after* `argv[0]` has been
discarded (both sources drop `argv[0]` before the loop).

The loop consumes at least one token per iteration; it is embedded with an
explicit fuel argument, always called with `fuel = args.length`, which is
provably enough (`parseGo_congFuel` below shows any fuel ≥ length gives the
same result, so the fuel is an artifact of totality, not of behaviour).
-/

/-- Pointwise update of a map `String → Option α`; models `HashMap::insert`
(later inserts overwrite earlier ones for the same key). -/
def updMap {α : Type} (m : String → Option α) (k : String) (v : α) : String → Option α :=
  fun x => if x = k then some v else m x

/-- Pointwise insertion into a set `String → Bool`; models `HashSet::insert`. -/
def updSet (s : String → Bool) (k : String) : String → Bool :=
  fun x => if x = k then true else s x

/-- Models Rust `s.starts_with('-')`: true iff the first character is `'-'`. -/
def startsDash (s : String) : Bool :=
  match s.data with
  | [] => false
  | c :: _ => c = '-'

/-- Models `next = next.split_off(1)`: keep everything after the first
character.  (In the source this is only applied to strings whose first
character is the one-byte `'-'`, so the byte index 1 is a char boundary.) -/
def dropOne (s : String) : String := String.mk s.data.tail

/-- Normalization of a dash-prefixed token (lib.rs lines 474–478, clappers.rs
lines 148–152): strip one leading dash, then a second one if present. -/
def stripDashes (s : String) : String :=
  let s1 := dropOne s
  if startsDash s1 then dropOne s1 else s1

/-- Models Rust `str::split('|')` on the character list: the list of
(possibly empty) pieces between `'|'` delimiters; never empty, and the empty
string splits to `[[]]` (one empty piece), as in Rust. -/
def splitBarChars : List Char → List (List Char)
  | [] => [[]]
  | c :: cs =>
    match splitBarChars cs with
    | [] => [[]]
    | p :: ps => if c = '|' then [] :: p :: ps else (c :: p) :: ps

/-- Models `arg_spec.split('|').collect::<Vec<&str>>()`. -/
def splitBar (s : String) : List String :=
  (splitBarChars s.data).map String.mk

/-- Model of `ConfigType` (lib.rs lines 716–720): a canonical-name set and an
alias → canonical-name table for one argument kind. -/
structure ConfigType where
  name : String → Bool
  aliases : String → Option String

/-- Model of `ConfigType::new` (lib.rs lines 691–696). -/
def ConfigType.new : ConfigType :=
  { name := fun _ => false, aliases := fun _ => none }

/-- Model of `ConfigType::add_to_config` (lib.rs lines 698–713): for each spec string,
split on `'|'`; skip the spec if the split is empty; otherwise add the first
piece to the canonical-name set and map every piece (the first included) to
it in the alias table.  The identical inline loops in clappers.rs
(`flags`/`singles`/`multiples`, lines 80–138) are also this function. -/
def ConfigType.add_to_config (ct : ConfigType) (arg_specs : List String) : ConfigType :=
  arg_specs.foldl
    (fun acc arg_spec =>
      match splitBar arg_spec with
      | [] => acc
      | first :: others =>
        { name := updSet acc.name first,
          aliases := (first :: others).foldl (fun m a => updMap m a first) acc.aliases })
    ct

/-- Model of `Config` (lib.rs lines 676–681); also holds the six fields of
`ClappersConfig` (clappers.rs lines 11–19), which stores the same data as
three (set, alias-table) pairs: `flags`/`flag_aliases`, `single`/
`single_aliases`, `multiple`/`multiple_aliases`. -/
structure Config where
  flags : ConfigType
  singles : ConfigType
  multiples : ConfigType

/-- Model of `Values` (lib.rs lines 683–688) = `ClappersValues` (clappers.rs lines
21–26): the seen-flag set, the single-value map and the multiple-value map
(the latter also keyed by the reserved empty canonical name for leftovers). -/
structure Values where
  flags : String → Bool
  singles : String → Option String
  multiples : String → Option (List String)

/-- Model of `self.values.flags.insert(name)` in the flag branch. -/
def Values.setFlag (vals : Values) (n : String) : Values :=
  { vals with flags := updSet vals.flags n }

/-- Model of `self.values.singles.insert(name, v)` in the single branch. -/
def Values.setSingle (vals : Values) (n v : String) : Values :=
  { vals with singles := updMap vals.singles n v }

/-- The `if ... is_none() { insert(name, vec![]) }` guard before the multiple
inner loop and in the leftover branch. -/
def Values.ensureMult (vals : Values) (n : String) : Values :=
  match vals.multiples n with
  | some _ => vals
  | none => { vals with multiples := updMap vals.multiples n [] }

/-- Model of `self.values.multiples.get_mut(n).unwrap().push(t)`: append one value to
the (assumed present, modelled with default `[]`) list for `n`. -/
def Values.pushMult (vals : Values) (n t : String) : Values :=
  { vals with multiples := updMap vals.multiples n (((vals.multiples n).getD []) ++ [t]) }

/-- Store an explicit whole list for a canonical multiple name (used to state
what the inner loop computes). -/
def Values.withMult (vals : Values) (n : String) (l : List String) : Values :=
  { vals with multiples := updMap vals.multiples n l }

/-- The inner `while` loop of the multiple branch (lib.rs lines 497–507,
clappers.rs lines 171–181): peek the next token; stop (leaving it in the
stream) at a dash-prefixed token or end of input, otherwise consume it and
push it onto the list for `n`.  Returns the updated store and the remaining
stream. -/
def innerLoop (n : String) : List String → Values → Values × List String
  | [], vals => (vals, [])
  | v :: rest, vals =>
    if startsDash v then (vals, v :: rest)
    else innerLoop n rest (vals.pushMult n v)

/-- The outer `while let Some(next) = args.next()` loop shared by
`lib.rs::parse` (lines 472–516) and `clappers.rs::parse` (lines 146–190),
with an explicit fuel (always instantiated with the stream length, which
suffices since every iteration consumes at least one token).  A dash-prefixed
token is normalized and looked up in the flag, then single, then multiple
alias tables; the first match decides the branch; no match discards the
token.  A token without a leading dash is appended to the leftovers list
(key `""`). -/
def parseGo (cfg : Config) : Nat → List String → Values → Values
  | _, [], vals => vals
  | 0, _ :: _, vals => vals
  | fuel + 1, next :: rest, vals =>
    if startsDash next then
      match cfg.flags.aliases (stripDashes next) with
      | some n => parseGo cfg fuel rest (vals.setFlag n)
      | none =>
        match cfg.singles.aliases (stripDashes next) with
        | some n =>
          match rest with
          | [] => parseGo cfg fuel [] vals
          | v :: rest2 =>
            if startsDash v then parseGo cfg fuel (v :: rest2) vals
            else parseGo cfg fuel rest2 (vals.setSingle n v)
        | none =>
          match cfg.multiples.aliases (stripDashes next) with
          | some n =>
            match innerLoop n rest (vals.ensureMult n) with
            | (vals2, rest2) => parseGo cfg fuel rest2 vals2
          | none => parseGo cfg fuel rest vals
    else
      parseGo cfg fuel rest ((vals.ensureMult "").pushMult "" next)

/-- The parse loop at its canonical fuel. -/
def parseLoop (cfg : Config) (args : List String) (vals : Values) : Values :=
  parseGo cfg args.length args vals

/-- Model of `Clappers` (lib.rs lines 670–674) and the `Clappers` of clappers.rs
(lines 5–9): a configuration registry paired with a values store. -/
structure Clappers where
  config : Config
  values : Values

/-- Model of `Clappers::build` (lib.rs lines 252–265). -/
def Clappers.build : Clappers :=
  { config := { flags := ConfigType.new, singles := ConfigType.new, multiples := ConfigType.new },
    values := { flags := fun _ => false, singles := fun _ => none, multiples := fun _ => none } }

/-- Model of `Clappers::add_flags` (lib.rs lines 311–314). -/
def Clappers.add_flags (cl : Clappers) (arg_specs : List String) : Clappers :=
  { cl with config := { cl.config with flags := cl.config.flags.add_to_config arg_specs } }

/-- Model of `Clappers::add_singles` (lib.rs lines 358–361). -/
def Clappers.add_singles (cl : Clappers) (arg_specs : List String) : Clappers :=
  { cl with config := { cl.config with singles := cl.config.singles.add_to_config arg_specs } }

/-- Model of `Clappers::add_multiples` (lib.rs lines 419–422). -/
def Clappers.add_multiples (cl : Clappers) (arg_specs : List String) : Clappers :=
  { cl with config := { cl.config with multiples := cl.config.multiples.add_to_config arg_specs } }

/-- Model of `Clappers::parse` (lib.rs lines 459–519): first insert the reserved
empty-string leftovers name and alias into the multiples registry
(lines 461–465), then run the loop over the argument stream (after
`argv[0]`, which the caller of this model has already discarded). -/
def Clappers.parse (cl : Clappers) (args : List String) : Clappers :=
  let config :=
    { cl.config with
      multiples :=
        { name := updSet cl.config.multiples.name "",
          aliases := updMap cl.config.multiples.aliases "" "" } }
  { config := config, values := parseLoop config args cl.values }

/-- Model of `Clappers::get_flag` (lib.rs lines 553–559). -/
def Clappers.get_flag (cl : Clappers) (argument : String) : Bool :=
  match cl.config.flags.aliases argument with
  | none => false
  | some f => cl.values.flags f

/-- Model of `Clappers::get_single` (lib.rs lines 588–600). -/
def Clappers.get_single (cl : Clappers) (argument : String) : String :=
  match cl.config.singles.aliases argument with
  | none => ""
  | some s => (cl.values.singles s).getD ""

/-- Model of `Clappers::get_multiple` (lib.rs lines 629–637). -/
def Clappers.get_multiple (cl : Clappers) (argument : String) : List String :=
  match cl.config.multiples.aliases argument with
  | none => []
  | some m => (cl.values.multiples m).getD []

/-- Model of `Clappers::get_leftovers` (lib.rs lines 665–667). -/
def Clappers.get_leftovers (cl : Clappers) : List String :=
  cl.get_multiple ""

/-- Model of `Clappers::build` of clappers.rs (lines 29–45). -/
def ClappersRS.build : Clappers :=
  { config := { flags := ConfigType.new, singles := ConfigType.new, multiples := ConfigType.new },
    values := { flags := fun _ => false, singles := fun _ => none, multiples := fun _ => none } }

/-- Model of `Clappers::flags` of clappers.rs (lines 80–98); its loop body is
identical to `ConfigType::add_to_config`. -/
def ClappersRS.flags (cl : Clappers) (argument_specs : List String) : Clappers :=
  { cl with config := { cl.config with flags := cl.config.flags.add_to_config argument_specs } }

/-- Model of `Clappers::singles` of clappers.rs (lines 120–138). -/
def ClappersRS.singles (cl : Clappers) (argument_specs : List String) : Clappers :=
  { cl with config := { cl.config with singles := cl.config.singles.add_to_config argument_specs } }

/-- Model of `Clappers::multiples` of clappers.rs (lines 100–118). -/
def ClappersRS.multiples (cl : Clappers) (argument_specs : List String) : Clappers :=
  { cl with config := { cl.config with multiples := cl.config.multiples.add_to_config argument_specs } }

/-- Model of `Clappers::parse` of clappers.rs (lines 140–193): the same loop, but with
no leftovers-alias setup beforehand. -/
def ClappersRS.parse (cl : Clappers) (args : List String) : Clappers :=
  { config := cl.config, values := parseLoop cl.config args cl.values }

/-- Model of `Clappers::get_flag` of clappers.rs (lines 47–52). -/
def ClappersRS.get_flag (cl : Clappers) (parameter : String) : Bool :=
  match cl.config.flags.aliases parameter with
  | none => false
  | some real_flag => cl.values.flags real_flag

/-- Model of `Clappers::get_single` of clappers.rs (lines 54–64). -/
def ClappersRS.get_single (cl : Clappers) (parameter : String) : String :=
  match cl.config.singles.aliases parameter with
  | none => ""
  | some real_single => (cl.values.singles real_single).getD ""

/-- Model of `Clappers::get_multiple` of clappers.rs (lines 66–78). -/
def ClappersRS.get_multiple (cl : Clappers) (parameter : String) : List String :=
  match cl.config.multiples.aliases parameter with
  | none => []
  | some real_multiple => (cl.values.multiples real_multiple).getD []

/-- Observational equality of two value stores: same flag set, same single
map, and the same multiple-value list for every canonical name up to the
invisible difference between an absent list and a stored empty list (every
read of the multiples map in the source goes through `unwrap_or(vec![])` or
starts from `vec![]`). -/
def Values.ObsEq (v1 v2 : Values) : Prop :=
  v1.flags = v2.flags ∧ v1.singles = v2.singles ∧
    ∀ k, (v1.multiples k).getD [] = (v2.multiples k).getD []

/-- The store invariant of claim C10: every stored single value and every
element of every stored multiple-value list is dash-free. -/
def CleanVals (v : Values) : Prop :=
  (∀ n s, v.singles n = some s → startsDash s = false) ∧
  (∀ n l, v.multiples n = some l → ∀ t ∈ l, startsDash t = false)

/-- The continue condition of the multiple-value inner loop and of the
leftover run: the token does not begin with a dash. -/
def nonDash (t : String) : Bool := !(startsDash t)

/-- A lib.rs parser configured by the chained registration calls, as in the
crate documentation: `Clappers::build().add_flags(..).add_singles(..)
.add_multiples(..)`. -/
def mkClappers (fs ss ms : List String) : Clappers :=
  ((Clappers.build.add_flags fs).add_singles ss).add_multiples ms

/-- A clappers.rs parser configured by the analogous chain
`Clappers::build().flags(..).singles(..).multiples(..)`. -/
def mkClappersRS (fs ss ms : List String) : Clappers :=
  ClappersRS.multiples (ClappersRS.singles (ClappersRS.flags ClappersRS.build fs) ss) ms

theorem updMap_self {α : Type} (m : String → Option α) (k : String) (v : α) :
    updMap m k v k = some v := by simp [updMap]

theorem updMap_other {α : Type} (m : String → Option α) (k : String) (v : α) (x : String)
    (h : x ≠ k) : updMap m k v x = m x := by simp [updMap, h]

theorem Values.withMult_multiples (vals : Values) (n : String) (l : List String) (x : String) :
    (vals.withMult n l).multiples x = if x = n then some l else vals.multiples x := rfl

theorem Values.pushMult_eq_withMult (vals : Values) (n t : String) :
    vals.pushMult n t = vals.withMult n (((vals.multiples n).getD []) ++ [t]) := rfl

theorem Values.withMult_withMult (vals : Values) (n : String) (a b : List String) :
    (vals.withMult n a).withMult n b = vals.withMult n b := by
  cases vals with
  | mk f s m =>
    simp only [Values.withMult]
    congr 1
    funext x
    by_cases hx : x = n <;> simp [updMap, hx]

theorem Values.withMult_self (vals : Values) (n : String) (l : List String)
    (h : vals.multiples n = some l) : vals.withMult n l = vals := by
  cases vals with
  | mk f s m =>
    simp only [Values.withMult]
    congr 1
    funext x
    by_cases hx : x = n
    · subst hx; simp only [updMap, if_pos rfl]; exact h.symm
    · simp [updMap, hx]

theorem Values.ensureMult_multiples_self (vals : Values) (n : String) :
    (vals.ensureMult n).multiples n = some ((vals.multiples n).getD []) := by
  unfold Values.ensureMult
  cases h : vals.multiples n <;> simp [h, updMap]

theorem Values.ensureMult_withMult (vals : Values) (n : String) (l : List String) :
    (vals.ensureMult n).withMult n l = vals.withMult n l := by
  unfold Values.ensureMult
  cases h : vals.multiples n
  · exact Values.withMult_withMult vals n [] l
  · rfl

theorem Values.ensure_push (vals : Values) (n t : String) :
    (vals.ensureMult n).pushMult n t = vals.withMult n (((vals.multiples n).getD []) ++ [t]) := by
  rw [Values.pushMult_eq_withMult, Values.ensureMult_multiples_self]
  simp only [Option.getD_some]
  exact Values.ensureMult_withMult vals n _

theorem innerLoop_spec (n : String) : ∀ (args : List String) (vals : Values) (l : List String),
    vals.multiples n = some l →
    innerLoop n args vals =
      (vals.withMult n (l ++ args.takeWhile nonDash), args.dropWhile nonDash)
  | [], vals, l, h => by
    simp [innerLoop, List.takeWhile, List.dropWhile, Values.withMult_self vals n l h]
  | v :: rest, vals, l, h => by
    cases hv : startsDash v with
    | true =>
      simp [innerLoop, hv, List.takeWhile_cons, List.dropWhile_cons, nonDash,
        Values.withMult_self vals n l h]
    | false =>
      have h2 : (vals.pushMult n v).multiples n = some (l ++ [v]) := by
        simp [Values.pushMult, Values.withMult, updMap, h]
      simp only [innerLoop, hv, Bool.false_eq_true, if_false, List.takeWhile_cons,
        List.dropWhile_cons, nonDash, Bool.not_false, if_true]
      rw [innerLoop_spec n rest (vals.pushMult n v) (l ++ [v]) h2,
        Values.pushMult_eq_withMult, Values.withMult_withMult]
      simp [List.append_assoc]

theorem parseGo_flag (cfg : Config) (fuel : Nat) (next : String) (rest : List String)
    (vals : Values) (n : String) (hd : startsDash next = true)
    (hflag : cfg.flags.aliases (stripDashes next) = some n) :
    parseGo cfg (fuel + 1) (next :: rest) vals = parseGo cfg fuel rest (vals.setFlag n) := by
  simp [parseGo, hd, hflag]

theorem parseGo_single_nil (cfg : Config) (fuel : Nat) (next : String)
    (vals : Values) (n : String) (hd : startsDash next = true)
    (hflag : cfg.flags.aliases (stripDashes next) = none)
    (hsing : cfg.singles.aliases (stripDashes next) = some n) :
    parseGo cfg (fuel + 1) [next] vals = vals := by
  simp [parseGo, hd, hflag, hsing]

theorem parseGo_single_dash (cfg : Config) (fuel : Nat) (next v : String)
    (rest2 : List String) (vals : Values) (n : String) (hd : startsDash next = true)
    (hflag : cfg.flags.aliases (stripDashes next) = none)
    (hsing : cfg.singles.aliases (stripDashes next) = some n)
    (hv : startsDash v = true) :
    parseGo cfg (fuel + 1) (next :: v :: rest2) vals = parseGo cfg fuel (v :: rest2) vals := by
  simp [parseGo, hd, hflag, hsing, hv]

theorem parseGo_single_val (cfg : Config) (fuel : Nat) (next v : String)
    (rest2 : List String) (vals : Values) (n : String) (hd : startsDash next = true)
    (hflag : cfg.flags.aliases (stripDashes next) = none)
    (hsing : cfg.singles.aliases (stripDashes next) = some n)
    (hv : startsDash v = false) :
    parseGo cfg (fuel + 1) (next :: v :: rest2) vals
      = parseGo cfg fuel rest2 (vals.setSingle n v) := by
  simp [parseGo, hd, hflag, hsing, hv]

theorem parseGo_mult (cfg : Config) (fuel : Nat) (next : String) (rest : List String)
    (vals : Values) (n : String) (hd : startsDash next = true)
    (hflag : cfg.flags.aliases (stripDashes next) = none)
    (hsing : cfg.singles.aliases (stripDashes next) = none)
    (hmult : cfg.multiples.aliases (stripDashes next) = some n) :
    parseGo cfg (fuel + 1) (next :: rest) vals
      = parseGo cfg fuel (rest.dropWhile nonDash)
          (vals.withMult n (((vals.multiples n).getD []) ++ rest.takeWhile nonDash)) := by
  have hspec := innerLoop_spec n rest (vals.ensureMult n) ((vals.multiples n).getD [])
    (Values.ensureMult_multiples_self vals n)
  rw [Values.ensureMult_withMult] at hspec
  simp [parseGo, hd, hflag, hsing, hmult, hspec]

theorem parseGo_nomatch (cfg : Config) (fuel : Nat) (next : String) (rest : List String)
    (vals : Values) (hd : startsDash next = true)
    (hflag : cfg.flags.aliases (stripDashes next) = none)
    (hsing : cfg.singles.aliases (stripDashes next) = none)
    (hmult : cfg.multiples.aliases (stripDashes next) = none) :
    parseGo cfg (fuel + 1) (next :: rest) vals = parseGo cfg fuel rest vals := by
  simp [parseGo, hd, hflag, hsing, hmult]

theorem parseGo_leftover (cfg : Config) (fuel : Nat) (next : String) (rest : List String)
    (vals : Values) (hd : startsDash next = false) :
    parseGo cfg (fuel + 1) (next :: rest) vals
      = parseGo cfg fuel rest (vals.withMult "" (((vals.multiples "").getD []) ++ [next])) := by
  simp [parseGo, hd, Values.ensure_push]

theorem parseGo_congFuel (cfg : Config) : ∀ (f1 : Nat) (args : List String) (f2 : Nat)
    (vals : Values), args.length ≤ f1 → args.length ≤ f2 →
    parseGo cfg f1 args vals = parseGo cfg f2 args vals := by
  intro f1
  induction f1 with
  | zero =>
    intro args f2 vals h1 h2
    have hargs : args = [] := List.length_eq_zero.mp (Nat.le_zero.mp h1)
    subst hargs
    cases f2 <;> rfl
  | succ f1 ih =>
    intro args f2 vals h1 h2
    cases args with
    | nil => cases f2 <;> rfl
    | cons next rest =>
      obtain ⟨f2', rfl⟩ : ∃ k, f2 = k + 1 := by
        cases f2 with
        | zero => simp at h2
        | succ k => exact ⟨k, rfl⟩
      have hr : rest.length ≤ f1 := by simp at h1; omega
      have hr2 : rest.length ≤ f2' := by simp at h2; omega
      cases hd : startsDash next with
      | false =>
        rw [parseGo_leftover cfg f1 next rest vals hd, parseGo_leftover cfg f2' next rest vals hd]
        exact ih rest f2' _ hr hr2
      | true =>
        cases hflag : cfg.flags.aliases (stripDashes next) with
        | some n =>
          rw [parseGo_flag cfg f1 next rest vals n hd hflag,
            parseGo_flag cfg f2' next rest vals n hd hflag]
          exact ih rest f2' _ hr hr2
        | none =>
          cases hsing : cfg.singles.aliases (stripDashes next) with
          | some n =>
            cases rest with
            | nil =>
              rw [parseGo_single_nil cfg f1 next vals n hd hflag hsing,
                parseGo_single_nil cfg f2' next vals n hd hflag hsing]
            | cons v rest2 =>
              cases hv : startsDash v with
              | true =>
                rw [parseGo_single_dash cfg f1 next v rest2 vals n hd hflag hsing hv,
                  parseGo_single_dash cfg f2' next v rest2 vals n hd hflag hsing hv]
                exact ih (v :: rest2) f2' _ hr hr2
              | false =>
                rw [parseGo_single_val cfg f1 next v rest2 vals n hd hflag hsing hv,
                  parseGo_single_val cfg f2' next v rest2 vals n hd hflag hsing hv]
                have : rest2.length ≤ f1 := by simp at hr; omega
                have h2' : rest2.length ≤ f2' := by simp at hr2; omega
                exact ih rest2 f2' _ this h2'
          | none =>
            cases hmult : cfg.multiples.aliases (stripDashes next) with
            | some n =>
              rw [parseGo_mult cfg f1 next rest vals n hd hflag hsing hmult,
                parseGo_mult cfg f2' next rest vals n hd hflag hsing hmult]
              have hdl : (rest.dropWhile nonDash).length ≤ rest.length :=
                (List.dropWhile_sublist nonDash).length_le
              exact ih (rest.dropWhile nonDash) f2' _ (le_trans hdl hr) (le_trans hdl hr2)
            | none =>
              rw [parseGo_nomatch cfg f1 next rest vals hd hflag hsing hmult,
                parseGo_nomatch cfg f2' next rest vals hd hflag hsing hmult]
              exact ih rest f2' _ hr hr2

theorem parseGo_eq_parseLoop (cfg : Config) (fuel : Nat) (args : List String) (vals : Values)
    (h : args.length ≤ fuel) : parseGo cfg fuel args vals = parseLoop cfg args vals :=
  parseGo_congFuel cfg fuel args args.length vals h le_rfl

theorem parseLoop_nil (cfg : Config) (vals : Values) : parseLoop cfg [] vals = vals := rfl

theorem parseLoop_flag (cfg : Config) (next : String) (rest : List String) (vals : Values)
    (n : String) (hd : startsDash next = true)
    (hflag : cfg.flags.aliases (stripDashes next) = some n) :
    parseLoop cfg (next :: rest) vals = parseLoop cfg rest (vals.setFlag n) := by
  show parseGo cfg (rest.length + 1) (next :: rest) vals = _
  rw [parseGo_flag cfg rest.length next rest vals n hd hflag]
  rfl

theorem parseLoop_single_nil (cfg : Config) (next : String) (vals : Values) (n : String)
    (hd : startsDash next = true) (hflag : cfg.flags.aliases (stripDashes next) = none)
    (hsing : cfg.singles.aliases (stripDashes next) = some n) :
    parseLoop cfg [next] vals = vals := by
  show parseGo cfg 1 [next] vals = _
  rw [parseGo_single_nil cfg 0 next vals n hd hflag hsing]

theorem parseLoop_single_dash (cfg : Config) (next v : String) (rest2 : List String)
    (vals : Values) (n : String) (hd : startsDash next = true)
    (hflag : cfg.flags.aliases (stripDashes next) = none)
    (hsing : cfg.singles.aliases (stripDashes next) = some n)
    (hv : startsDash v = true) :
    parseLoop cfg (next :: v :: rest2) vals = parseLoop cfg (v :: rest2) vals := by
  show parseGo cfg (rest2.length + 1 + 1) (next :: v :: rest2) vals = _
  rw [parseGo_single_dash cfg (rest2.length + 1) next v rest2 vals n hd hflag hsing hv]
  rfl

theorem parseLoop_single_val (cfg : Config) (next v : String) (rest2 : List String)
    (vals : Values) (n : String) (hd : startsDash next = true)
    (hflag : cfg.flags.aliases (stripDashes next) = none)
    (hsing : cfg.singles.aliases (stripDashes next) = some n)
    (hv : startsDash v = false) :
    parseLoop cfg (next :: v :: rest2) vals = parseLoop cfg rest2 (vals.setSingle n v) := by
  show parseGo cfg (rest2.length + 1 + 1) (next :: v :: rest2) vals = _
  rw [parseGo_single_val cfg (rest2.length + 1) next v rest2 vals n hd hflag hsing hv]
  exact parseGo_eq_parseLoop cfg (rest2.length + 1) rest2 _ (Nat.le_succ _)

theorem parseLoop_mult (cfg : Config) (next : String) (rest : List String) (vals : Values)
    (n : String) (hd : startsDash next = true)
    (hflag : cfg.flags.aliases (stripDashes next) = none)
    (hsing : cfg.singles.aliases (stripDashes next) = none)
    (hmult : cfg.multiples.aliases (stripDashes next) = some n) :
    parseLoop cfg (next :: rest) vals
      = parseLoop cfg (rest.dropWhile nonDash)
          (vals.withMult n (((vals.multiples n).getD []) ++ rest.takeWhile nonDash)) := by
  show parseGo cfg (rest.length + 1) (next :: rest) vals = _
  rw [parseGo_mult cfg rest.length next rest vals n hd hflag hsing hmult]
  exact parseGo_eq_parseLoop cfg rest.length (rest.dropWhile nonDash) _
    (List.dropWhile_sublist nonDash).length_le

theorem parseLoop_nomatch (cfg : Config) (next : String) (rest : List String) (vals : Values)
    (hd : startsDash next = true) (hflag : cfg.flags.aliases (stripDashes next) = none)
    (hsing : cfg.singles.aliases (stripDashes next) = none)
    (hmult : cfg.multiples.aliases (stripDashes next) = none) :
    parseLoop cfg (next :: rest) vals = parseLoop cfg rest vals := by
  show parseGo cfg (rest.length + 1) (next :: rest) vals = _
  rw [parseGo_nomatch cfg rest.length next rest vals hd hflag hsing hmult]
  rfl

theorem parseLoop_leftover (cfg : Config) (next : String) (rest : List String) (vals : Values)
    (hd : startsDash next = false) :
    parseLoop cfg (next :: rest) vals
      = parseLoop cfg rest (vals.withMult "" (((vals.multiples "").getD []) ++ [next])) := by
  show parseGo cfg (rest.length + 1) (next :: rest) vals = _
  rw [parseGo_leftover cfg rest.length next rest vals hd]
  rfl

theorem parseLoop_leftover_run (cfg : Config) : ∀ (r : List String), r ≠ [] →
    (∀ t ∈ r, startsDash t = false) → ∀ (rest : List String) (vals : Values),
    parseLoop cfg (r ++ rest) vals
      = parseLoop cfg rest (vals.withMult "" (((vals.multiples "").getD []) ++ r)) := by
  intro r
  induction r with
  | nil => intro h; exact absurd rfl h
  | cons t r' ih =>
    intro _ hall rest vals
    have ht : startsDash t = false := hall t (List.mem_cons_self t r')
    cases r' with
    | nil => simpa using parseLoop_leftover cfg t rest vals ht
    | cons u r'' =>
      have step := parseLoop_leftover cfg t ((u :: r'') ++ rest) vals ht
      have hall' : ∀ x ∈ u :: r'', startsDash x = false := by
        intro x hx; exact hall x (List.mem_cons_of_mem t hx)
      have ihh := ih (by simp) hall' rest (vals.withMult "" (((vals.multiples "").getD []) ++ [t]))
      rw [List.cons_append, step, ihh, Values.withMult_multiples]
      rw [if_pos rfl, Values.withMult_withMult]
      simp

theorem obsEq_refl (v : Values) : Values.ObsEq v v := ⟨rfl, rfl, fun _ => rfl⟩

theorem obsEq_trans {v1 v2 v3 : Values} (h12 : Values.ObsEq v1 v2) (h23 : Values.ObsEq v2 v3) :
    Values.ObsEq v1 v3 :=
  ⟨h12.1.trans h23.1, h12.2.1.trans h23.2.1, fun k => (h12.2.2 k).trans (h23.2.2 k)⟩

theorem obsEq_setFlag {v1 v2 : Values} (h : Values.ObsEq v1 v2) (n : String) :
    Values.ObsEq (v1.setFlag n) (v2.setFlag n) :=
  ⟨by simp [Values.setFlag, h.1], h.2.1, h.2.2⟩

theorem obsEq_setSingle {v1 v2 : Values} (h : Values.ObsEq v1 v2) (n t : String) :
    Values.ObsEq (v1.setSingle n t) (v2.setSingle n t) :=
  ⟨h.1, by simp [Values.setSingle, h.2.1], h.2.2⟩

theorem obsEq_withMult {v1 v2 : Values} (h : Values.ObsEq v1 v2) (n : String) (ts : List String) :
    Values.ObsEq (v1.withMult n (((v1.multiples n).getD []) ++ ts))
      (v2.withMult n (((v2.multiples n).getD []) ++ ts)) := by
  refine ⟨h.1, h.2.1, fun k => ?_⟩
  rw [Values.withMult_multiples, Values.withMult_multiples]
  by_cases hk : k = n
  · simp [hk, h.2.2 n]
  · simp [hk, h.2.2 k]

theorem obsEq_withMult_getD_nil (v : Values) (n : String) :
    Values.ObsEq (v.withMult n (((v.multiples n).getD []) ++ [])) v := by
  refine ⟨rfl, rfl, fun k => ?_⟩
  rw [Values.withMult_multiples]
  by_cases hk : k = n
  · simp [hk]
  · simp [hk]

theorem parseGo_obsEq (cfg1 cfg2 : Config)
    (hf : cfg1.flags.aliases = cfg2.flags.aliases)
    (hs : cfg1.singles.aliases = cfg2.singles.aliases)
    (hm : ∀ k, k ≠ "" → cfg1.multiples.aliases k = cfg2.multiples.aliases k)
    (hm0 : cfg1.multiples.aliases "" = cfg2.multiples.aliases "" ∨
      (cfg1.multiples.aliases "" = some "" ∧ cfg2.multiples.aliases "" = none)) :
    ∀ (fuel : Nat) (args : List String) (v1 v2 : Values), args.length ≤ fuel →
      Values.ObsEq v1 v2 →
      Values.ObsEq (parseGo cfg1 fuel args v1) (parseGo cfg2 fuel args v2) := by
  intro fuel
  induction fuel with
  | zero =>
    intro args v1 v2 h1 h12
    have hargs : args = [] := List.length_eq_zero.mp (Nat.le_zero.mp h1)
    subst hargs
    exact h12
  | succ fuel ih =>
    intro args v1 v2 h1 h12
    cases args with
    | nil => exact h12
    | cons next rest =>
      have hr : rest.length ≤ fuel := by simp at h1; omega
      cases hd : startsDash next with
      | false =>
        rw [parseGo_leftover cfg1 fuel next rest v1 hd, parseGo_leftover cfg2 fuel next rest v2 hd]
        exact ih rest _ _ hr (obsEq_withMult h12 "" [next])
      | true =>
        cases hflag : cfg1.flags.aliases (stripDashes next) with
        | some n =>
          have hflag2 : cfg2.flags.aliases (stripDashes next) = some n := by rw [← hf]; exact hflag
          rw [parseGo_flag cfg1 fuel next rest v1 n hd hflag,
            parseGo_flag cfg2 fuel next rest v2 n hd hflag2]
          exact ih rest _ _ hr (obsEq_setFlag h12 n)
        | none =>
          have hflag2 : cfg2.flags.aliases (stripDashes next) = none := by rw [← hf]; exact hflag
          cases hsing : cfg1.singles.aliases (stripDashes next) with
          | some n =>
            have hsing2 : cfg2.singles.aliases (stripDashes next) = some n := by
              rw [← hs]; exact hsing
            cases rest with
            | nil =>
              rw [parseGo_single_nil cfg1 fuel next v1 n hd hflag hsing,
                parseGo_single_nil cfg2 fuel next v2 n hd hflag2 hsing2]
              exact h12
            | cons v rest2 =>
              cases hv : startsDash v with
              | true =>
                rw [parseGo_single_dash cfg1 fuel next v rest2 v1 n hd hflag hsing hv,
                  parseGo_single_dash cfg2 fuel next v rest2 v2 n hd hflag2 hsing2 hv]
                exact ih (v :: rest2) _ _ hr h12
              | false =>
                rw [parseGo_single_val cfg1 fuel next v rest2 v1 n hd hflag hsing hv,
                  parseGo_single_val cfg2 fuel next v rest2 v2 n hd hflag2 hsing2 hv]
                have hr2 : rest2.length ≤ fuel := by simp at hr; omega
                exact ih rest2 _ _ hr2 (obsEq_setSingle h12 n v)
          | none =>
            have hsing2 : cfg2.singles.aliases (stripDashes next) = none := by
              rw [← hs]; exact hsing
            have hdl : (rest.dropWhile nonDash).length ≤ rest.length :=
              (List.dropWhile_sublist nonDash).length_le
            have hsame : cfg1.multiples.aliases (stripDashes next)
                = cfg2.multiples.aliases (stripDashes next) ∨
                (stripDashes next = "" ∧ cfg1.multiples.aliases (stripDashes next) = some ""
                  ∧ cfg2.multiples.aliases (stripDashes next) = none) := by
              by_cases hk : stripDashes next = ""
              · cases hm0 with
                | inl heq => exact Or.inl (by rw [hk]; exact heq)
                | inr hpair => exact Or.inr ⟨hk, by rw [hk]; exact hpair.1, by rw [hk]; exact hpair.2⟩
              · exact Or.inl (hm _ hk)
            cases hsame with
            | inl heq =>
              cases hmult : cfg1.multiples.aliases (stripDashes next) with
              | some n =>
                have hmult2 : cfg2.multiples.aliases (stripDashes next) = some n := by
                  rw [← heq]; exact hmult
                rw [parseGo_mult cfg1 fuel next rest v1 n hd hflag hsing hmult,
                  parseGo_mult cfg2 fuel next rest v2 n hd hflag2 hsing2 hmult2]
                exact ih (rest.dropWhile nonDash) _ _ (le_trans hdl hr)
                  (obsEq_withMult h12 n (rest.takeWhile nonDash))
              | none =>
                have hmult2 : cfg2.multiples.aliases (stripDashes next) = none := by
                  rw [← heq]; exact hmult
                rw [parseGo_nomatch cfg1 fuel next rest v1 hd hflag hsing hmult,
                  parseGo_nomatch cfg2 fuel next rest v2 hd hflag2 hsing2 hmult2]
                exact ih rest _ _ hr h12
            | inr hdiv =>
              obtain ⟨hk, hmult, hmult2⟩ := hdiv
              rw [parseGo_mult cfg1 fuel next rest v1 "" hd hflag hsing hmult,
                parseGo_nomatch cfg2 fuel next rest v2 hd hflag2 hsing2 hmult2]
              by_cases htake : rest.takeWhile nonDash = []
              · have hdrop : rest.dropWhile nonDash = rest := by
                  have hta := List.takeWhile_append_dropWhile nonDash rest
                  rw [htake] at hta
                  simpa using hta
                rw [hdrop, htake]
                exact ih rest _ _ hr (obsEq_trans (obsEq_withMult_getD_nil v1 "") h12)
              · have hall : ∀ x ∈ rest.takeWhile nonDash, startsDash x = false := by
                  intro x hx
                  have := List.mem_takeWhile_imp hx
                  simpa [nonDash] using this
                have hne : rest.takeWhile nonDash ≠ [] := htake
                have hrw : parseGo cfg2 fuel rest v2
                    = parseLoop cfg2 (rest.dropWhile nonDash)
                        (v2.withMult "" (((v2.multiples "").getD []) ++ rest.takeWhile nonDash)) := by
                  rw [parseGo_eq_parseLoop cfg2 fuel rest v2 hr]
                  conv_lhs => rw [← List.takeWhile_append_dropWhile nonDash rest]
                  exact parseLoop_leftover_run cfg2 (rest.takeWhile nonDash) hne hall
                    (rest.dropWhile nonDash) v2
                rw [hrw, ← parseGo_eq_parseLoop cfg2 fuel (rest.dropWhile nonDash) _
                  (le_trans hdl hr)]
                exact ih (rest.dropWhile nonDash) _ _ (le_trans hdl hr)
                  (obsEq_withMult h12 "" (rest.takeWhile nonDash))

theorem mkClappers_eq_mkClappersRS (fs ss ms : List String) :
    mkClappers fs ss ms = mkClappersRS fs ss ms := rfl

theorem obsEq_get_flag (cfg : Config) {v1 v2 : Values} (h : Values.ObsEq v1 v2) (a : String) :
    Clappers.get_flag ⟨cfg, v1⟩ a = Clappers.get_flag ⟨cfg, v2⟩ a := by
  unfold Clappers.get_flag
  cases cfg.flags.aliases a with
  | none => rfl
  | some f => simp [h.1]

theorem obsEq_get_single (cfg : Config) {v1 v2 : Values} (h : Values.ObsEq v1 v2) (a : String) :
    Clappers.get_single ⟨cfg, v1⟩ a = Clappers.get_single ⟨cfg, v2⟩ a := by
  unfold Clappers.get_single
  cases cfg.singles.aliases a with
  | none => rfl
  | some s => simp [h.2.1]

theorem obsEq_get_multiple (cfg : Config) {v1 v2 : Values} (h : Values.ObsEq v1 v2) (a : String) :
    Clappers.get_multiple ⟨cfg, v1⟩ a = Clappers.get_multiple ⟨cfg, v2⟩ a := by
  unfold Clappers.get_multiple
  cases cfg.multiples.aliases a with
  | none => rfl
  | some m => exact h.2.2 m

theorem clean_setFlag {v : Values} (h : CleanVals v) (n : String) :
    CleanVals (v.setFlag n) := ⟨h.1, h.2⟩

theorem clean_setSingle {v : Values} (h : CleanVals v) (n t : String)
    (ht : startsDash t = false) : CleanVals (v.setSingle n t) := by
  refine ⟨?_, h.2⟩
  intro k s hks
  rw [show (v.setSingle n t).singles k = if k = n then some t else v.singles k from rfl] at hks
  by_cases hk : k = n
  · rw [if_pos hk] at hks
    exact (Option.some.inj hks) ▸ ht
  · rw [if_neg hk] at hks
    exact h.1 k s hks

theorem clean_withMult {v : Values} (h : CleanVals v) (n : String) (ts : List String)
    (hts : ∀ t ∈ ts, startsDash t = false) :
    CleanVals (v.withMult n (((v.multiples n).getD []) ++ ts)) := by
  refine ⟨h.1, ?_⟩
  intro k l hkl
  rw [Values.withMult_multiples] at hkl
  by_cases hk : k = n
  · rw [if_pos hk] at hkl
    rw [← Option.some.inj hkl]
    intro t htl
    rcases List.mem_append.mp htl with hmem | hmem
    · cases hv : v.multiples n with
      | none => rw [hv] at hmem; simp at hmem
      | some l0 => rw [hv] at hmem; exact h.2 n l0 hv t hmem
    · exact hts t hmem
  · rw [if_neg hk] at hkl
    exact h.2 k l hkl

theorem parseGo_clean (cfg : Config) : ∀ (fuel : Nat) (args : List String) (vals : Values),
    CleanVals vals → CleanVals (parseGo cfg fuel args vals) := by
  intro fuel
  induction fuel with
  | zero => intro args vals h; cases args <;> exact h
  | succ fuel ih =>
    intro args vals h
    cases args with
    | nil => exact h
    | cons next rest =>
      cases hd : startsDash next with
      | false =>
        rw [parseGo_leftover cfg fuel next rest vals hd]
        refine ih rest _ (clean_withMult h "" [next] ?_)
        intro t htl
        rw [List.mem_singleton] at htl
        subst htl
        exact hd
      | true =>
        cases hflag : cfg.flags.aliases (stripDashes next) with
        | some n =>
          rw [parseGo_flag cfg fuel next rest vals n hd hflag]
          exact ih rest _ (clean_setFlag h n)
        | none =>
          cases hsing : cfg.singles.aliases (stripDashes next) with
          | some n =>
            cases rest with
            | nil =>
              rw [parseGo_single_nil cfg fuel next vals n hd hflag hsing]
              exact h
            | cons v rest2 =>
              cases hv : startsDash v with
              | true =>
                rw [parseGo_single_dash cfg fuel next v rest2 vals n hd hflag hsing hv]
                exact ih (v :: rest2) _ h
              | false =>
                rw [parseGo_single_val cfg fuel next v rest2 vals n hd hflag hsing hv]
                exact ih rest2 _ (clean_setSingle h n v hv)
          | none =>
            cases hmult : cfg.multiples.aliases (stripDashes next) with
            | some n =>
              rw [parseGo_mult cfg fuel next rest vals n hd hflag hsing hmult]
              refine ih (rest.dropWhile nonDash) _ (clean_withMult h n (rest.takeWhile nonDash) ?_)
              intro t htl
              have := List.mem_takeWhile_imp htl
              simpa [nonDash] using this
            | none =>
              rw [parseGo_nomatch cfg fuel next rest vals hd hflag hsing hmult]
              exact ih rest _ h

theorem clean_empty : CleanVals Clappers.build.values :=
  ⟨fun _ _ h => Option.noConfusion h, fun _ _ h => Option.noConfusion h⟩

theorem parseLoop_doubledash_skip (cfgA : Config)
    (hflag : cfgA.flags.aliases "" = none) (hsing : cfgA.singles.aliases "" = none)
    (hmult : cfgA.multiples.aliases "" = some "") (args : List String) (vals : Values) :
    Values.ObsEq (parseLoop cfgA ("--" :: args) vals) (parseLoop cfgA args vals) := by
  have hd : startsDash "--" = true := by decide
  have hstrip : stripDashes "--" = "" := by decide
  rw [parseLoop_mult cfgA "--" args vals "" hd (by rw [hstrip]; exact hflag)
    (by rw [hstrip]; exact hsing) (by rw [hstrip]; exact hmult)]
  by_cases htake : args.takeWhile nonDash = []
  · have hdrop : args.dropWhile nonDash = args := by
      have hta := List.takeWhile_append_dropWhile nonDash args
      rw [htake] at hta
      simpa using hta
    rw [hdrop, htake]
    exact parseGo_obsEq cfgA cfgA rfl rfl (fun _ _ => rfl) (Or.inl rfl) args.length args _ _
      le_rfl (obsEq_withMult_getD_nil vals "")
  · have hall : ∀ x ∈ args.takeWhile nonDash, startsDash x = false := by
      intro x hx
      have := List.mem_takeWhile_imp hx
      simpa [nonDash] using this
    have hrw : parseLoop cfgA args vals
        = parseLoop cfgA (args.dropWhile nonDash)
            (vals.withMult "" (((vals.multiples "").getD []) ++ args.takeWhile nonDash)) := by
      conv_lhs => rw [← List.takeWhile_append_dropWhile nonDash args]
      exact parseLoop_leftover_run cfgA (args.takeWhile nonDash) htake hall
        (args.dropWhile nonDash) vals
    rw [hrw]
    exact obsEq_refl _

theorem parse_values_obsEq (cfg : Config) (hm : cfg.multiples.aliases "" = none)
    (args : List String) (vals : Values) :
    Values.ObsEq
      (parseLoop
        { cfg with multiples :=
            { name := updSet cfg.multiples.name "",
              aliases := updMap cfg.multiples.aliases "" "" } } args vals)
      (parseLoop cfg args vals) := by
  refine parseGo_obsEq
    { cfg with multiples :=
        { name := updSet cfg.multiples.name "",
          aliases := updMap cfg.multiples.aliases "" "" } }
    cfg rfl rfl ?_ ?_ args.length args vals vals le_rfl (obsEq_refl vals)
  · intro k hk
    exact updMap_other _ _ _ k hk
  · exact Or.inr ⟨updMap_self cfg.multiples.aliases "" "", hm⟩

/-- C1: for a single registered as "o|output", parsing ["-o", "out.txt"]
yields single-query "output" = "out.txt"; parsing ["-o", "-x"] (no alias "x"
declared) yields "" because the dash-prefixed lookahead is peeked, not
consumed; and in general, when a single matches and the next token exists and
is not dash-prefixed, that token is consumed and stored as the value for the
canonical name, overwriting any previous value (`Values.setSingle` is a map
overwrite, and the repeated-option run shows the last value wins). -/
theorem single_value_semantics :
    (((Clappers.build.add_singles ["o|output"]).parse ["-o", "out.txt"]).get_single "output"
        = "out.txt")
    ∧ (((Clappers.build.add_singles ["o|output"]).parse ["-o", "-x"]).get_single "output" = "")
    ∧ (((Clappers.build.add_singles ["o|output"]).parse ["-o", "a", "-o", "b"]).get_single
        "output" = "b")
    ∧ (∀ (cfg : Config) (next t : String) (rest : List String) (vals : Values) (n : String),
        startsDash next = true → cfg.flags.aliases (stripDashes next) = none →
        cfg.singles.aliases (stripDashes next) = some n → startsDash t = false →
        parseLoop cfg (next :: t :: rest) vals = parseLoop cfg rest (vals.setSingle n t))
    ∧ (∀ (cfg : Config) (next v : String) (rest : List String) (vals : Values) (n : String),
        startsDash next = true → cfg.flags.aliases (stripDashes next) = none →
        cfg.singles.aliases (stripDashes next) = some n → startsDash v = true →
        parseLoop cfg (next :: v :: rest) vals = parseLoop cfg (v :: rest) vals) := by
  refine ⟨by decide, by decide, by decide, ?_, ?_⟩
  · intro cfg next t rest vals n hd hflag hsing ht
    exact parseLoop_single_val cfg next t rest vals n hd hflag hsing ht
  · intro cfg next v rest vals n hd hflag hsing hv
    exact parseLoop_single_dash cfg next v rest vals n hd hflag hsing hv

theorem single_value_semantics_witness :
    parseLoop (Clappers.build.add_singles ["o|output"]).config ["-o", "w"] Clappers.build.values
      = parseLoop (Clappers.build.add_singles ["o|output"]).config []
          (Clappers.build.values.setSingle "o" "w") :=
  single_value_semantics.2.2.2.1 (Clappers.build.add_singles ["o|output"]).config "-o" "w" []
    Clappers.build.values "o" (by decide) (by decide) (by decide) (by decide)

/-- C2: for a multiple registered as "i|input", parsing
["-i", "a.txt", "b.txt", "-i", "c.txt"] yields multiple-query "input" =
["a.txt", "b.txt", "c.txt"]; in general a matched multiple appends the run of
consecutive non-dash tokens to the canonical name's list in encounter order,
and the run stops at end of input or at the first dash-prefixed token, which
is left unconsumed for the outer loop (the `dropWhile`). -/
theorem multiple_value_semantics :
    (((Clappers.build.add_multiples ["i|input"]).parse
        ["-i", "a.txt", "b.txt", "-i", "c.txt"]).get_multiple "input"
      = ["a.txt", "b.txt", "c.txt"])
    ∧ (∀ (cfg : Config) (next : String) (rest : List String) (vals : Values) (n : String),
        startsDash next = true → cfg.flags.aliases (stripDashes next) = none →
        cfg.singles.aliases (stripDashes next) = none →
        cfg.multiples.aliases (stripDashes next) = some n →
        parseLoop cfg (next :: rest) vals
          = parseLoop cfg (rest.dropWhile nonDash)
              (vals.withMult n (((vals.multiples n).getD []) ++ rest.takeWhile nonDash))) := by
  refine ⟨by decide, ?_⟩
  intro cfg next rest vals n hd hflag hsing hmult
  exact parseLoop_mult cfg next rest vals n hd hflag hsing hmult

theorem multiple_value_semantics_witness :
    parseLoop (Clappers.build.add_multiples ["i|input"]).config ["-i", "a", "-z"]
        Clappers.build.values
      = parseLoop (Clappers.build.add_multiples ["i|input"]).config
          (["a", "-z"].dropWhile nonDash)
          (Clappers.build.values.withMult "i"
            (((Clappers.build.values.multiples "i").getD []) ++ ["a", "-z"].takeWhile nonDash)) :=
  multiple_value_semantics.2 (Clappers.build.add_multiples ["i|input"]).config "-i" ["a", "-z"]
    Clappers.build.values "i" (by decide) (by decide) (by decide) (by decide)

/-- C3: every non-dash token reaching the outer loop is appended to the
leftovers list (the multiples list keyed by the reserved empty canonical
name), regardless of configuration; leftovers-query is exactly multiple-query
on the empty alias; and parsing ["x", "-h", "y"] with only a flag "h"
declared yields leftovers ["x", "y"] in encounter order and flag-query "h" =
true. -/
theorem leftovers_semantics :
    (∀ cl : Clappers, cl.get_leftovers = cl.get_multiple "")
    ∧ (∀ (cfg : Config) (next : String) (rest : List String) (vals : Values),
        startsDash next = false →
        parseLoop cfg (next :: rest) vals
          = parseLoop cfg rest (vals.withMult "" (((vals.multiples "").getD []) ++ [next])))
    ∧ (((Clappers.build.add_flags ["h"]).parse ["x", "-h", "y"]).get_leftovers = ["x", "y"])
    ∧ (((Clappers.build.add_flags ["h"]).parse ["x", "-h", "y"]).get_flag "h" = true) := by
  refine ⟨fun cl => rfl, ?_, by decide, by decide⟩
  intro cfg next rest vals hd
  exact parseLoop_leftover cfg next rest vals hd

theorem leftovers_semantics_witness :
    parseLoop Clappers.build.config ["z"] Clappers.build.values
      = parseLoop Clappers.build.config []
          (Clappers.build.values.withMult ""
            (((Clappers.build.values.multiples "").getD []) ++ ["z"])) :=
  leftovers_semantics.2.1 Clappers.build.config "z" [] Clappers.build.values (by decide)

/-- C5: a dash-prefixed token is looked up in the flag alias table first, then
the single table, then the multiple table, and the first match decides the
branch: the flag step needs no hypothesis about the other two tables, the
single step only needs the flag table to miss, and the multiple step needs
both to miss; an alias registered under several kinds is resolved by this
fixed priority with no error, as the two concrete double registrations show. -/
theorem lookup_priority :
    (∀ (cfg : Config) (next : String) (rest : List String) (vals : Values) (n : String),
        startsDash next = true → cfg.flags.aliases (stripDashes next) = some n →
        parseLoop cfg (next :: rest) vals = parseLoop cfg rest (vals.setFlag n))
    ∧ (∀ (cfg : Config) (next t : String) (rest : List String) (vals : Values) (n : String),
        startsDash next = true → cfg.flags.aliases (stripDashes next) = none →
        cfg.singles.aliases (stripDashes next) = some n → startsDash t = false →
        parseLoop cfg (next :: t :: rest) vals = parseLoop cfg rest (vals.setSingle n t))
    ∧ (∀ (cfg : Config) (next : String) (rest : List String) (vals : Values) (n : String),
        startsDash next = true → cfg.flags.aliases (stripDashes next) = none →
        cfg.singles.aliases (stripDashes next) = none →
        cfg.multiples.aliases (stripDashes next) = some n →
        parseLoop cfg (next :: rest) vals
          = parseLoop cfg (rest.dropWhile nonDash)
              (vals.withMult n (((vals.multiples n).getD []) ++ rest.takeWhile nonDash)))
    ∧ ((((Clappers.build.add_flags ["x"]).add_singles ["x"]).parse ["-x", "v"]).get_flag "x"
          = true
        ∧ (((Clappers.build.add_flags ["x"]).add_singles ["x"]).parse ["-x", "v"]).get_single "x"
          = ""
        ∧ (((Clappers.build.add_flags ["x"]).add_singles ["x"]).parse ["-x", "v"]).get_leftovers
          = ["v"])
    ∧ ((((Clappers.build.add_singles ["y"]).add_multiples ["y"]).parse
          ["-y", "a", "b"]).get_single "y" = "a"
        ∧ (((Clappers.build.add_singles ["y"]).add_multiples ["y"]).parse
            ["-y", "a", "b"]).get_multiple "y" = []
        ∧ (((Clappers.build.add_singles ["y"]).add_multiples ["y"]).parse
            ["-y", "a", "b"]).get_leftovers = ["b"]) := by
  refine ⟨?_, ?_, ?_, ⟨by decide, by decide, by decide⟩, ⟨by decide, by decide, by decide⟩⟩
  · intro cfg next rest vals n hd hflag
    exact parseLoop_flag cfg next rest vals n hd hflag
  · intro cfg next t rest vals n hd hflag hsing ht
    exact parseLoop_single_val cfg next t rest vals n hd hflag hsing ht
  · intro cfg next rest vals n hd hflag hsing hmult
    exact parseLoop_mult cfg next rest vals n hd hflag hsing hmult

theorem lookup_priority_witness :
    parseLoop ((Clappers.build.add_flags ["x"]).add_singles ["x"]).config ["-x", "v"]
        Clappers.build.values
      = parseLoop ((Clappers.build.add_flags ["x"]).add_singles ["x"]).config ["v"]
          (Clappers.build.values.setFlag "x") :=
  lookup_priority.1 ((Clappers.build.add_flags ["x"]).add_singles ["x"]).config "-x" ["v"]
    Clappers.build.values "x" (by decide) (by decide)

/-- C10: after parse, every value stored in the singles map and every element
of every list in the multiples map (the leftovers list included) is a token
that does not begin with a dash. -/
theorem no_dash_values_invariant (fs ss ms : List String) (args : List String) :
    (∀ n s, ((mkClappers fs ss ms).parse args).values.singles n = some s
        → startsDash s = false)
    ∧ (∀ n l, ((mkClappers fs ss ms).parse args).values.multiples n = some l
        → ∀ t ∈ l, startsDash t = false) :=
  parseGo_clean _ args.length args _ clean_empty

theorem no_dash_values_invariant_witness :
    startsDash "w" = false ∧ startsDash "z" = false :=
  ⟨(no_dash_values_invariant [] ["o"] [] ["-o", "w"]).1 "o" "w" (by decide),
    (no_dash_values_invariant [] [] [] ["z"]).2 "" ["z"] (by decide) "z" (by decide)⟩

theorem get_multiple_congr_table (cfg1 cfg2 : Config) (v : Values) (a : String)
    (h : cfg1.multiples.aliases a = cfg2.multiples.aliases a) :
    Clappers.get_multiple ⟨cfg1, v⟩ a = Clappers.get_multiple ⟨cfg2, v⟩ a := by
  unfold Clappers.get_multiple
  rw [h]

/-- C4 counterexample: with no empty-string alias registered by the caller, a
bare "--" does find a matching alias — the empty-string multiples alias that
`parse` itself installs — and it does record something: parsing ["--"] leaves
an (empty) leftovers entry in the multiples store, which parsing [] does not,
contradicting the claim that "--" finds no matching alias and records
nothing. -/
theorem doubledash_counterexample :
    (Clappers.build.parse ["--"]).config.multiples.aliases "" = some ""
    ∧ (Clappers.build.parse ["--"]).values.multiples "" = some []
    ∧ (Clappers.build.parse []).values.multiples "" = none :=
  ⟨by decide, by decide, by decide⟩

/-- C4 (amended): for a configuration in which the caller registered no
empty-string alias, a bare "--" normalizes to the empty string and matches
the empty-string multiples alias that parse installs for leftovers: it
ensures the leftovers entry exists and consumes the following run of
non-dash tokens into the leftovers list; this is observationally the same as
discarding the token — all four accessors give the same results as for the
sequence with the "--" skipped, so no subsequent token is classified
differently. -/
theorem doubledash_behavior (fs ss ms : List String) (args : List String)
    (hflag : (mkClappers fs ss ms).config.flags.aliases "" = none)
    (hsing : (mkClappers fs ss ms).config.singles.aliases "" = none) :
    (stripDashes "--" = "")
    ∧ (((mkClappers fs ss ms).parse args).config.multiples.aliases "" = some "")
    ∧ (∀ (rest : List String) (vals : Values),
        parseLoop ((mkClappers fs ss ms).parse args).config ("--" :: rest) vals
          = parseLoop ((mkClappers fs ss ms).parse args).config (rest.dropWhile nonDash)
              (vals.withMult "" (((vals.multiples "").getD []) ++ rest.takeWhile nonDash)))
    ∧ (∀ a, ((mkClappers fs ss ms).parse ("--" :: args)).get_flag a
          = ((mkClappers fs ss ms).parse args).get_flag a)
    ∧ (∀ a, ((mkClappers fs ss ms).parse ("--" :: args)).get_single a
          = ((mkClappers fs ss ms).parse args).get_single a)
    ∧ (∀ a, ((mkClappers fs ss ms).parse ("--" :: args)).get_multiple a
          = ((mkClappers fs ss ms).parse args).get_multiple a)
    ∧ (((mkClappers fs ss ms).parse ("--" :: args)).get_leftovers
        = ((mkClappers fs ss ms).parse args).get_leftovers) := by
  have hstrip : stripDashes "--" = "" := by decide
  have hA : ((mkClappers fs ss ms).parse args).config.multiples.aliases "" = some "" :=
    updMap_self (mkClappers fs ss ms).config.multiples.aliases "" ""
  have hAf : ((mkClappers fs ss ms).parse args).config.flags.aliases "" = none := hflag
  have hAs : ((mkClappers fs ss ms).parse args).config.singles.aliases "" = none := hsing
  have hobs := parseLoop_doubledash_skip ((mkClappers fs ss ms).parse args).config hAf hAs hA
    args (mkClappers fs ss ms).values
  refine ⟨hstrip, hA, ?_, ?_, ?_, ?_, ?_⟩
  · intro rest vals
    refine parseLoop_mult _ "--" rest vals "" (by decide) ?_ ?_ ?_
    · rw [hstrip]; exact hAf
    · rw [hstrip]; exact hAs
    · rw [hstrip]; exact hA
  · intro a
    exact obsEq_get_flag ((mkClappers fs ss ms).parse args).config hobs a
  · intro a
    exact obsEq_get_single ((mkClappers fs ss ms).parse args).config hobs a
  · intro a
    exact obsEq_get_multiple ((mkClappers fs ss ms).parse args).config hobs a
  · exact obsEq_get_multiple ((mkClappers fs ss ms).parse args).config hobs ""

theorem doubledash_behavior_witness :
    ((mkClappers [] [] []).parse ["--", "z"]).get_leftovers
      = ((mkClappers [] [] []).parse ["z"]).get_leftovers :=
  (doubledash_behavior [] [] [] ["z"] (by decide) (by decide)).2.2.2.2.2.2

/-- C6 counterexample: the empty-string alias was never registered under any
kind by the caller (`Clappers.build` registers nothing), yet after parsing
["x"] multiple-query on "" returns ["x"], not the empty-list default, because
parse itself registers "" as the leftovers alias. -/
theorem unknown_alias_counterexample :
    (Clappers.build.parse ["x"]).get_multiple "" = ["x"]
    ∧ (Clappers.build.parse ["x"]).get_multiple "" ≠ [] :=
  ⟨by decide, by decide⟩

/-- C6 (amended): for any non-empty alias string never registered under any
kind, and every parsed argument sequence, flag-query returns false,
single-query returns "", and multiple-query returns [] — the accessors never
fail on unknown input; the reserved empty-string alias is the one exception,
since parse installs it for leftovers. -/
theorem unknown_alias_safety (fs ss ms : List String) (a : String) (args : List String)
    (hne : a ≠ "")
    (hflag : (mkClappers fs ss ms).config.flags.aliases a = none)
    (hsing : (mkClappers fs ss ms).config.singles.aliases a = none)
    (hmult : (mkClappers fs ss ms).config.multiples.aliases a = none) :
    ((mkClappers fs ss ms).parse args).get_flag a = false
    ∧ ((mkClappers fs ss ms).parse args).get_single a = ""
    ∧ ((mkClappers fs ss ms).parse args).get_multiple a = [] := by
  have hAf : ((mkClappers fs ss ms).parse args).config.flags.aliases a = none := hflag
  have hAs : ((mkClappers fs ss ms).parse args).config.singles.aliases a = none := hsing
  have hAm : ((mkClappers fs ss ms).parse args).config.multiples.aliases a = none := by
    show updMap (mkClappers fs ss ms).config.multiples.aliases "" "" a = none
    rw [updMap_other _ _ _ a hne]
    exact hmult
  refine ⟨?_, ?_, ?_⟩
  · simp [Clappers.get_flag, hAf]
  · simp [Clappers.get_single, hAs]
  · simp [Clappers.get_multiple, hAm]

theorem unknown_alias_safety_witness :
    ((mkClappers ["h"] [] []).parse ["-h"]).get_flag "zzz" = false
    ∧ ((mkClappers ["h"] [] []).parse ["-h"]).get_single "zzz" = ""
    ∧ ((mkClappers ["h"] [] []).parse ["-h"]).get_multiple "zzz" = [] :=
  unknown_alias_safety ["h"] [] [] "zzz" ["-h"] (by decide) (by decide) (by decide) (by decide)

/-- C7 counterexample: "a" and "b" are registered in the same spec string
"a|b", but the later spec "b|c" re-registers "b" with canonical name "b", so
after parsing ["-a"] querying by "a" gives true while querying by "b" gives
false — aliases from one spec string need not agree once overwritten. -/
theorem alias_equiv_counterexample :
    ((Clappers.build.add_flags ["a|b", "b|c"]).parse ["-a"]).get_flag "a" = true
    ∧ ((Clappers.build.add_flags ["a|b", "b|c"]).parse ["-a"]).get_flag "b" = false :=
  ⟨by decide, by decide⟩

/-- C7 (amended): for any two aliases that map to the same entry of a kind's
alias table in the parser being queried (which holds for aliases of one spec
string only as long as neither mapping was overwritten by a later spec or by
the parser's own leftovers-alias setup), the accessor of that kind yields the
same result for both. -/
theorem alias_equivalence (cl : Clappers) (a b : String) :
    (cl.config.flags.aliases a = cl.config.flags.aliases b →
      cl.get_flag a = cl.get_flag b)
    ∧ (cl.config.singles.aliases a = cl.config.singles.aliases b →
      cl.get_single a = cl.get_single b)
    ∧ (cl.config.multiples.aliases a = cl.config.multiples.aliases b →
      cl.get_multiple a = cl.get_multiple b) := by
  refine ⟨?_, ?_, ?_⟩
  · intro h
    unfold Clappers.get_flag
    rw [h]
  · intro h
    unfold Clappers.get_single
    rw [h]
  · intro h
    unfold Clappers.get_multiple
    rw [h]

theorem alias_equivalence_witness :
    ((Clappers.build.add_flags ["h|help"]).parse ["-h"]).get_flag "h"
      = ((Clappers.build.add_flags ["h|help"]).parse ["-h"]).get_flag "help" :=
  (alias_equivalence ((Clappers.build.add_flags ["h|help"]).parse ["-h"]) "h" "help").1
    (by decide)

/-- C8 counterexample: the empty-string spec is not ignored — registering it
changes the registry, adding the canonical name "" and the alias "" mapped to
"", because splitting "" on the delimiter yields one empty alias, not zero
aliases. -/
theorem empty_spec_counterexample :
    (Clappers.build.add_flags [""]).config.flags.aliases "" = some ""
    ∧ (Clappers.build.add_flags [""]).config.flags.name "" = true
    ∧ Clappers.build.config.flags.aliases "" = none :=
  ⟨by decide, by decide, by decide⟩

/-- C8 (amended): a registration call skips a spec only when its split yields
zero aliases, and splitting any string on the delimiter always yields at
least one (possibly empty) alias, so the skip path is dead; in particular the
empty-string spec registers the empty alias: it adds "" to the kind's
canonical-name set and maps the alias "" to the canonical name "". -/
theorem empty_spec_behavior :
    (∀ s : String, 1 ≤ (splitBar s).length)
    ∧ (∀ ct : ConfigType, (ct.add_to_config [""]).name "" = true
        ∧ (ct.add_to_config [""]).aliases "" = some "") := by
  constructor
  · intro s
    unfold splitBar
    rw [List.length_map]
    have h : ∀ cs : List Char, splitBarChars cs ≠ [] := by
      intro cs
      induction cs with
      | nil => simp [splitBarChars]
      | cons c cs ihc =>
        simp only [splitBarChars]
        cases hsp : splitBarChars cs with
        | nil => exact absurd hsp ihc
        | cons p ps => by_cases hc : c = '|' <;> simp [hc]
    exact List.length_pos.mpr (h s.data)
  · intro ct
    have hsplit : splitBar "" = [""] := by decide
    constructor
    · simp only [ConfigType.add_to_config, List.foldl, hsplit]
      simp [updSet]
    · simp only [ConfigType.add_to_config, List.foldl, hsplit]
      simp [updMap]

/-- C9 counterexample: with the same (empty) configuration and the same
argument sequence ["y"], the lib.rs parser answers multiple-query on the
empty-string (leftovers) alias with ["y"], while the clappers.rs parser
answers [], because only lib.rs's parse installs the empty-string alias. -/
theorem refinement_counterexample :
    (Clappers.build.parse ["y"]).get_multiple "" = ["y"]
    ∧ ClappersRS.get_multiple (ClappersRS.parse ClappersRS.build ["y"]) "" = [] :=
  ⟨by decide, by decide⟩

/-- C9 (amended): for configurations built from the same flag, single and
multiple spec lists in which no spec declares an empty-string multiples
alias, the lib.rs parser (build/add_flags/add_singles/add_multiples/parse)
and the clappers.rs parser (build/flags/singles/multiples/parse) produce
equal get_flag and get_single results for every alias and equal get_multiple
results for every non-empty alias; they differ exactly on the empty-string
alias, where lib.rs returns the accumulated leftovers while clappers.rs
returns the empty list. -/
theorem refinement_equivalence (fs ss ms : List String) (args : List String)
    (hm : (mkClappers fs ss ms).config.multiples.aliases "" = none) :
    (∀ a, ((mkClappers fs ss ms).parse args).get_flag a
        = ClappersRS.get_flag (ClappersRS.parse (mkClappersRS fs ss ms) args) a)
    ∧ (∀ a, ((mkClappers fs ss ms).parse args).get_single a
        = ClappersRS.get_single (ClappersRS.parse (mkClappersRS fs ss ms) args) a)
    ∧ (∀ a, a ≠ "" → ((mkClappers fs ss ms).parse args).get_multiple a
        = ClappersRS.get_multiple (ClappersRS.parse (mkClappersRS fs ss ms) args) a)
    ∧ ClappersRS.get_multiple (ClappersRS.parse (mkClappersRS fs ss ms) args) "" = [] := by
  have hobs := parse_values_obsEq (mkClappers fs ss ms).config hm args
    (mkClappers fs ss ms).values
  refine ⟨?_, ?_, ?_, ?_⟩
  · intro a
    exact obsEq_get_flag (mkClappers fs ss ms).config hobs a
  · intro a
    exact obsEq_get_single (mkClappers fs ss ms).config hobs a
  · intro a ha
    have htab : ((mkClappers fs ss ms).parse args).config.multiples.aliases a
        = (mkClappers fs ss ms).config.multiples.aliases a :=
      updMap_other _ _ _ a ha
    have h1 : Clappers.get_multiple ((mkClappers fs ss ms).parse args) a
        = Clappers.get_multiple
            ⟨(mkClappers fs ss ms).config,
              ((mkClappers fs ss ms).parse args).values⟩ a := by
      unfold Clappers.get_multiple
      rw [htab]
    exact h1.trans (obsEq_get_multiple (mkClappers fs ss ms).config hobs a)
  · have hA : (ClappersRS.parse (mkClappersRS fs ss ms) args).config.multiples.aliases ""
        = none := hm
    simp [ClappersRS.get_multiple, hA]

theorem refinement_equivalence_witness :
    (Clappers.build.parse ["x"]).get_flag "a"
      = ClappersRS.get_flag (ClappersRS.parse ClappersRS.build ["x"]) "a" :=
  (refinement_equivalence [] [] [] ["x"] (by decide)).1 "a"
